import Mathlib

/-!
Shallow embedding of `gracetulsi_xlsx_pipeline.py`, the ETVL pipeline that
computes total verified loss by state from an SBA FY22 spreadsheet.

Modelling conventions:
* A Python `str` is modelled as `PyStr := List Char`.
* A Python `float` is modelled as `ℚ` (no NaN, no infinities; every claim under
  consideration concerns the order and structure of the arithmetic, not
  IEEE rounding, so the rational model is adequate and keeps the
  accumulation order of the code visible).
* A spreadsheet cell value (openpyxl's `cell.value`) is the closed variant
  `CellValue := empty | num ℚ | text PyStr` (None, a numeric type, or a
  string), as in the spec's design note.
* A Python `dict[str, float]` is modelled as an insertion-ordered
  association list `List (PyStr × ℚ)` with unique keys, matching the
  insertion-order iteration of Python dicts.
* A raised exception is modelled with `Except PipelineError`.
-/

/-- A Python string, modelled as its sequence of characters. -/
abbrev PyStr := List Char

/-- Whitespace test used by Python's `str.strip()` (default argument). -/
def pyWs (c : Char) : Bool := c.isWhitespace

/-- `s.strip()`: remove leading and trailing whitespace. -/
def pyStrip (s : PyStr) : PyStr :=
  ((s.dropWhile pyWs).reverse.dropWhile pyWs).reverse

/-- `s.replace(",", "")`: remove every comma. -/
def removeCommas (s : PyStr) : PyStr := s.filter (fun c => c != ',')

/-- Decimal digit characters of a natural number, most significant first. -/
def natChars (n : ℕ) : PyStr := Nat.toDigits 10 n

/-- Decimal rendering of an integer. -/
def intChars (i : ℤ) : PyStr :=
  if i < 0 then '-' :: natChars i.natAbs else natChars i.natAbs

/-- Rendering of a rational, used to model `str(x)` on a numeric cell value.
The exact digits of Python's float-to-string conversion are not modelled
(no claim depends on them); what matters is that the text of a numeric cell
is non-empty and contains no whitespace. -/
def ratChars (q : ℚ) : PyStr :=
  if q.den = 1 then intChars q.num
  else intChars q.num ++ '/' :: natChars q.den

/-- A spreadsheet cell value as delivered by the workbook library:
`empty` is Python's `None`, `num` a numeric type (`int`/`float`),
`text` a string. -/
inductive CellValue where
  | empty : CellValue
  | num (q : ℚ) : CellValue
  | text (s : PyStr) : CellValue
deriving DecidableEq

/-- `str(value)` on a cell value. -/
def cellToText : CellValue → PyStr
  | .empty => ['N', 'o', 'n', 'e']
  | .num q => ratChars q
  | .text s => s

/-- The numeric value of a (leading-sign-free) digit string. -/
def digitsToNat (ds : List Char) : ℕ :=
  ds.foldl (fun a c => 10 * a + (c.toNat - 48)) 0

/-- Split a string into its leading run of decimal digits and the rest. -/
def spanDigits (s : List Char) : List Char × List Char :=
  (s.takeWhile Char.isDigit, s.dropWhile Char.isDigit)

/-- Parse the optionally signed digit string of an exponent. -/
def parseSignedDigits (s : List Char) : Option ℤ :=
  match s with
  | '+' :: r => if r ≠ [] ∧ r.all Char.isDigit then some (digitsToNat r) else none
  | '-' :: r => if r ≠ [] ∧ r.all Char.isDigit then some (-(digitsToNat r : ℤ)) else none
  | r => if r ≠ [] ∧ r.all Char.isDigit then some (digitsToNat r) else none

/-- Parse what may follow the mantissa: nothing, or `e`/`E` and a signed
exponent. Returns the exponent (0 when absent), or `none` on junk. -/
def parseExpPart (s : List Char) : Option ℤ :=
  match s with
  | [] => some 0
  | 'e' :: r => parseSignedDigits r
  | 'E' :: r => parseSignedDigits r
  | _ => none

/-- Scale a rational by a signed power of ten. -/
def scalePow10 (m : ℚ) (e : ℤ) : ℚ :=
  if 0 ≤ e then m * 10 ^ e.toNat else m / 10 ^ (-e).toNat

/-- Python's `float(s)` on an already-stripped string, modelling the grammar
`[sign] (digits [. digits] | . digits) [(e|E) [sign] digits]`.
(The `inf`/`nan` spellings and digit underscores accepted by Python are not
modelled; no claim depends on them, and a rational cannot carry NaN/Inf.)
Returns `none` where Python raises `ValueError`. -/
def pyFloat? (s : PyStr) : Option ℚ :=
  let (sgn, s1) : ℚ × List Char :=
    match s with
    | '+' :: r => (1, r)
    | '-' :: r => (-1, r)
    | r => (1, r)
  let (ip, r1) := spanDigits s1
  match r1 with
  | '.' :: r2 =>
    let (fp, r3) := spanDigits r2
    if ip = [] ∧ fp = [] then none
    else
      match parseExpPart r3 with
      | some e =>
        some (scalePow10 (sgn * ((digitsToNat ip : ℚ) +
          (digitsToNat fp : ℚ) / 10 ^ fp.length)) e)
      | none => none
  | _ =>
    if ip = [] then none
    else
      match parseExpPart r1 with
      | some e => some (scalePow10 (sgn * (digitsToNat ip : ℚ)) e)
      | none => none

/-- `_to_float(value)`: convert Excel cell values to float safely.
`None ↦ 0.0`; numeric types pass through; any other value is converted to
text, its commas removed, stripped, and parsed, with `0.0` on parse
failure (`except ValueError: return 0.0`). Total by construction: it never
raises. -/
def to_float : CellValue → ℚ
  | .empty => 0
  | .num q => q
  | .text s => (pyFloat? (pyStrip (removeCommas s))).getD 0

/-- A worksheet: the cell values of columns H and I by (1-based) row index,
and `sheet.max_row`. -/
structure Sheet where
  maxRow : ℕ
  cellH : ℕ → CellValue
  cellI : ℕ → CellValue

/-- A workbook: its sheets by name, in order (`workbook.sheetnames` is the
name column). The input file is modelled as `Option Workbook`, `none`
standing for a path that does not exist. -/
structure Workbook where
  sheets : List (PyStr × Sheet)

/-- `workbook.sheetnames`. -/
def Workbook.sheetnames (wb : Workbook) : List PyStr := wb.sheets.map Prod.fst

/-- Sheet lookup `workbook[sheet_name]`. -/
def Workbook.findSheet (wb : Workbook) (name : PyStr) : Option Sheet :=
  match wb.sheets.find? (fun p => p.1 == name) with
  | some p => some p.2
  | none => none

/-- The error taxonomy: each exception the pipeline raises, with the data
its message carries. -/
inductive PipelineError where
  | missingFile : PipelineError
  | missingSheet (requested : PyStr) (available : List PyStr) : PipelineError
  | emptyResult : PipelineError
  | negativeTotal (state : PyStr) (total : ℚ) : PipelineError
deriving DecidableEq

/-- One iteration of the extraction loop, at row `r`:
```
state_val = sheet[f"H{r}"].value ; loss_val = sheet[f"I{r}"].value
if state_val is None: continue
state = str(state_val).strip()
if not state: continue
if loss_val is None or (isinstance(loss_val, str) and not loss_val.strip()): continue
rows.append((state, _to_float(loss_val)))
```
`none` models `continue` (row skipped). -/
def extractRow (sheet : Sheet) (r : ℕ) : Option (PyStr × ℚ) :=
  match sheet.cellH r with
  | .empty => none
  | hv =>
    let state := pyStrip (cellToText hv)
    if state = [] then none
    else
      match sheet.cellI r with
      | .empty => none
      | .text s => if pyStrip s = [] then none else some (state, to_float (.text s))
      | iv => some (state, to_float iv)

/-- The row indices scanned: `range(6, sheet.max_row + 1)`. -/
def scannedRows (sheet : Sheet) : List ℕ := List.range' 6 (sheet.maxRow + 1 - 6)

/-- The extracted `(state, loss)` rows of a sheet, in scan order. -/
def extractedRows (sheet : Sheet) : List (PyStr × ℚ) :=
  (scannedRows sheet).filterMap (extractRow sheet)

/-- `extract_state_verified_loss_rows(file_path=…, sheet_name=…)`:
raises `FileNotFoundError` when the path does not exist, `ValueError`
naming the requested sheet and the available sheet names when the sheet is
absent, and otherwise returns the extracted rows. -/
def extract_state_verified_loss_rows (file : Option Workbook) (sheet_name : PyStr) :
    Except PipelineError (List (PyStr × ℚ)) :=
  match file with
  | none => .error .missingFile
  | some wb =>
    match wb.findSheet sheet_name with
    | none => .error (.missingSheet sheet_name wb.sheetnames)
    | some sheet => .ok (extractedRows sheet)

/-- `totals.get(state, 0.0)` followed by lookup-free access: `Option`-valued
lookup in the insertion-ordered association list modelling the dict. -/
def dictGet? : List (PyStr × ℚ) → PyStr → Option ℚ
  | [], _ => none
  | (k', v) :: rest, k => if k' = k then some v else dictGet? rest k

/-- `totals[state] = v`: overwrite in place when the key exists (its
position is unchanged, as in a Python dict), append otherwise. -/
def setKey : List (PyStr × ℚ) → PyStr → ℚ → List (PyStr × ℚ)
  | [], k, v => [(k, v)]
  | (k', v') :: rest, k, v =>
    if k' = k then (k', v) :: rest else (k', v') :: setKey rest k v

/-- The body of the aggregation loop:
`totals[state] = totals.get(state, 0.0) + loss`. -/
def aggStep (m : List (PyStr × ℚ)) (p : PyStr × ℚ) : List (PyStr × ℚ) :=
  setKey m p.1 ((dictGet? m p.1).getD 0 + p.2)

/-- `transform_total_verified_loss_by_state(rows=…)`: sum total verified
loss by state code, starting from the empty dict. -/
def transform_total_verified_loss_by_state (rows : List (PyStr × ℚ)) :
    List (PyStr × ℚ) :=
  rows.foldl aggStep []

/-- `verify_state_totals(totals=…)`: raise on an empty dict; otherwise
raise on the first (in insertion order) state whose total is negative,
naming that state and its value; otherwise return `None`. -/
def verify_state_totals (totals : List (PyStr × ℚ)) : Except PipelineError Unit :=
  if totals = [] then .error .emptyResult
  else
    match totals.find? (fun p => decide (p.2 < 0)) with
    | some p => .error (.negativeTotal p.1 p.2)
    | none => .ok ()

/-- The sort relation realised by
`sorted(totals.items(), key=lambda item: item[1], reverse=True)`:
entry `a` may precede entry `b` when `a`'s total is at least `b`'s. -/
def rankRel (a b : PyStr × ℚ) : Prop := b.2 ≤ a.2

instance : DecidableRel rankRel := fun a b => inferInstanceAs (Decidable (b.2 ≤ a.2))

instance : IsTotal (PyStr × ℚ) rankRel := ⟨fun a b => le_total b.2 a.2⟩

instance : IsTrans (PyStr × ℚ) rankRel := ⟨fun _ _ _ h h' => le_trans h' h⟩

/-- `ranked = sorted(totals.items(), key=lambda item: item[1], reverse=True)`.
Python's `sorted` is a stable sort; with `reverse=True` it is the stable
descending sort, realised here by Mathlib's (stable) insertion sort. -/
def rankedOf (totals : List (PyStr × ℚ)) : List (PyStr × ℚ) :=
  List.insertionSort rankRel totals

/-- Python's slice `l[:n]` for an `int` bound `n` of either sign: for
`0 ≤ n` the first `n` elements; for `n < 0` all but the last `|n|`.
Total: slicing never raises. -/
def pySliceTo (l : List (PyStr × ℚ)) (n : ℤ) : List (PyStr × ℚ) :=
  if 0 ≤ n then l.take n.toNat else l.take ((l.length : ℤ) + n).toNat

/-- Round half-to-even to an integer, as Python's string formatting does
when cutting to a fixed number of decimals. -/
def roundHalfEven (x : ℚ) : ℤ :=
  let f := x.floor
  let r := x - f
  if r < 1 / 2 then f
  else if 1 / 2 < r then f + 1
  else if f % 2 = 0 then f else f + 1

/-- Insert a comma after every third character of a reversed digit string. -/
def group3R : List Char → List Char
  | a :: b :: c :: d :: rest => a :: b :: c :: ',' :: group3R (d :: rest)
  | l => l

/-- Group a digit string with thousands-separator commas. -/
def groupThousands (ds : List Char) : List Char := (group3R ds.reverse).reverse

/-- Python's format spec `,.2f`: two decimals (half-even), thousands
separators in the integer part. (The sign of an IEEE negative zero is not
modelled: `ℚ` has a single zero.) -/
def formatComma2 (q : ℚ) : PyStr :=
  let cents := roundHalfEven (q * 100)
  let a := cents.natAbs
  let intDigits := groupThousands (natChars (a / 100))
  let fracDigits := if a % 100 < 10 then '0' :: natChars (a % 100) else natChars (a % 100)
  (if cents < 0 then ['-'] else []) ++ intDigits ++ '.' :: fracDigits

/-- `f"{s:>w}"`: pad on the left with spaces to width `w` (never truncates). -/
def padLeft (w : ℕ) (s : PyStr) : PyStr := List.replicate (w - s.length) ' ' ++ s

/-- `f"{s:<w}"`: pad on the right with spaces to width `w`. -/
def padRight (w : ℕ) (s : PyStr) : PyStr := s ++ List.replicate (w - s.length) ' '

/-- One data row of the report: `f"{i:>4} | {state:<5} | {total:>18,.2f}"`
with `i` the 1-based rank. -/
def reportDataLine (i : ℕ) (p : PyStr × ℚ) : PyStr :=
  padLeft 4 (natChars i) ++ " | ".data ++ padRight 5 p.1 ++ " | ".data ++
    padLeft 18 (formatComma2 p.2)

/-- The data rows written by the reporter: the ranked entries sliced to
`top_n`, each formatted with its 1-based rank (`enumerate(…, start=1)`). -/
def reportDataLines (totals : List (PyStr × ℚ)) (top_n : ℤ) : List PyStr :=
  ((pySliceTo (rankedOf totals) top_n).enum).map (fun ip => reportDataLine (ip.1 + 1) ip.2)

/-- The fixed header lines of the report (each `f.write(… + "\n")` before
the data rows; the `"Top N: …\n\n"` write contributes the blank line). -/
def reportHeader (totals : List (PyStr × ℚ)) (sheet_name : PyStr) (top_n : ℤ) :
    List PyStr :=
  ["SBA FY22 Home - Total Verified Loss by State".data,
   List.replicate 48 '=',
   "Sheet: ".data ++ sheet_name,
   "States counted: ".data ++ natChars totals.length,
   "Top N: ".data ++ intChars top_n,
   [],
   "Rank | State | Total Verified Loss".data,
   List.replicate 40 '-']

/-- The report as its list of lines, the header followed by the data rows. -/
def reportLines (totals : List (PyStr × ℚ)) (sheet_name : PyStr) (top_n : ℤ) :
    List PyStr :=
  reportHeader totals sheet_name top_n ++ reportDataLines totals top_n

/-- `load_state_totals_report(totals=…, out_path=…, sheet_name=…, top_n=…)`,
as the exact character content the function writes to the report file
(every line is written with a trailing newline). -/
def load_state_totals_report (totals : List (PyStr × ℚ)) (sheet_name : PyStr)
    (top_n : ℤ) : PyStr :=
  ((reportLines totals sheet_name top_n).map (fun l => l ++ ['\n'])).flatten

/-- The sheet name fixed by `run_pipeline`: `"FY22 Home"`. -/
def fy22Sheet : PyStr := "FY22 Home".data

/-- `run_pipeline(raw_dir=…, processed_dir=…, logger=…)`: extract, then
transform, then verify, then write the report, with fixed sheet name and
`top_n=10`. The input workbook stands for the file in `raw_dir`
(`none` = missing file); a `.ok` result is the content written to the
report file in `processed_dir`; a `.error` result is the uncaught
exception, with no report written. -/
def run_pipeline (file : Option Workbook) : Except PipelineError PyStr :=
  match extract_state_verified_loss_rows file fy22Sheet with
  | .error e => .error e
  | .ok rows =>
    let totals := transform_total_verified_loss_by_state rows
    match verify_state_totals totals with
    | .error e => .error e
    | .ok _ => .ok (load_state_totals_report totals fy22Sheet 10)

/-- A small concrete worksheet used to exercise the pipeline on a closed
input: row 6 holds `("UT", 100)`, row 7 a blank category, row 8
`(" CA ", "1,234.50")`. -/
def sampleSheet : Sheet where
  maxRow := 8
  cellH := fun r =>
    if r = 6 then .text ("UT".data)
    else if r = 8 then .text (" CA ".data)
    else .empty
  cellI := fun r =>
    if r = 6 then .num 100
    else if r = 7 then .num 50
    else if r = 8 then .text ("1,234.50".data)
    else .empty

/-- A workbook holding `sampleSheet` under the pipeline's fixed sheet name. -/
def sampleWorkbook : Workbook := ⟨[(fy22Sheet, sampleSheet)]⟩

/-! ## Claims -/

/-- C3: for every included row the measure is: the cell's numeric value
unchanged when the cell holds a numeric type; otherwise the cell converted
to text with surrounding whitespace stripped and commas removed, parsed as
a float, and `0.0` when the parse fails. The coercion is a total function
of the cell value (it never raises); text `"1,234.50"` yields `1234.50`
and text `"abc"` yields `0.0`. -/
theorem c3_to_float_coercion :
    (∀ q : ℚ, to_float (.num q) = q) ∧
    (∀ s : PyStr, to_float (.text s) = (pyFloat? (pyStrip (removeCommas s))).getD 0) ∧
    to_float (.text ("1,234.50".data)) = 1234.5 ∧
    to_float (.text ("abc".data)) = 0 := by
  refine ⟨fun _ => rfl, fun _ => rfl, ?_, rfl⟩
  have h1 : to_float (.text ("1,234.50".data)) =
      scalePow10 (1 * (((1234 : ℕ) : ℚ) + ((50 : ℕ) : ℚ) / 10 ^ 2)) 0 := rfl
  rw [h1]; norm_num [scalePow10]

/-- C2: the extractor includes a scanned row exactly when the category
cell is present (not `None`) with non-empty text after trimming, and the
measure cell is present and not a string that is empty or whitespace-only
after trimming; in particular a row with a blank measure cell is excluded
entirely (never admitted with measure `0.0`). -/
theorem c2_row_inclusion (sheet : Sheet) (r : ℕ) :
    (∃ p, extractRow sheet r = some p) ↔
      (sheet.cellH r ≠ .empty ∧ pyStrip (cellToText (sheet.cellH r)) ≠ [] ∧
        sheet.cellI r ≠ .empty ∧
        ∀ s, sheet.cellI r = .text s → pyStrip s ≠ []) := by
  cases hH : sheet.cellH r <;> cases hI : sheet.cellI r <;>
    simp only [extractRow, hH, hI] <;>
    constructor
  all_goals intro h
  all_goals simp_all

/-- C4: the validator raises the empty-result error exactly when the
aggregate map has zero entries; otherwise it raises a negative-total error
— naming a category of the map and its (negative) value — exactly when
some total is below zero; and it returns normally exactly when the map is
non-empty and every total is `≥ 0`. -/
theorem c4_validator (totals : List (PyStr × ℚ)) :
    (verify_state_totals totals = .error .emptyResult ↔ totals = []) ∧
    ((∃ s v, verify_state_totals totals = .error (.negativeTotal s v)) ↔
      totals ≠ [] ∧ ∃ p ∈ totals, p.2 < 0) ∧
    (∀ s v, verify_state_totals totals = .error (.negativeTotal s v) →
      (s, v) ∈ totals ∧ v < 0) ∧
    (verify_state_totals totals = .ok () ↔ totals ≠ [] ∧ ∀ p ∈ totals, 0 ≤ p.2) := by
  by_cases h : totals = []
  · subst h; simp [verify_state_totals]
  · unfold verify_state_totals
    rw [if_neg h]
    cases hf : totals.find? (fun p => decide (p.2 < 0)) with
    | none =>
      have hall : ∀ p ∈ totals, ¬ p.2 < 0 := by
        intro p hp
        simpa using List.find?_eq_none.mp hf p hp
      refine ⟨by simp [h], ?_, by simp, ?_⟩
      · simp only [reduceCtorEq, exists_false, false_iff, not_and, ne_eq]
        intro _
        rintro ⟨p, hp, hneg⟩
        exact hall p hp hneg
      · simp only [true_iff, ne_eq, h, not_false_iff, true_and]
        intro p hp
        exact le_of_not_lt (hall p hp)
    | some p =>
      have hp : p ∈ totals := List.mem_of_find?_eq_some hf
      have hneg : p.2 < 0 := by simpa using List.find?_some hf
      refine ⟨by simp [h], ?_, ?_, ?_⟩
      · constructor
        · intro _
          exact ⟨h, p, hp, hneg⟩
        · intro _
          exact ⟨p.1, p.2, rfl⟩
      · intro s v hsv
        have h1 : s = p.1 ∧ v = p.2 := by
          injection hsv with h2
          injection h2 with h3 h4
          exact ⟨h3.symm, h4.symm⟩
        rw [h1.1, h1.2]
        exact ⟨hp, hneg⟩
      · simp only [reduceCtorEq, false_iff, not_and, ne_eq]
        intro _ hnn
        exact absurd hneg (not_lt.mpr (hnn p hp))

/-- Looking up the key just stored finds the stored value. -/
theorem dictGet?_setKey_self (m : List (PyStr × ℚ)) (k : PyStr) (v : ℚ) :
    dictGet? (setKey m k v) k = some v := by
  induction m with
  | nil => simp [setKey, dictGet?]
  | cons p rest ih =>
    obtain ⟨k', v'⟩ := p
    by_cases h : k' = k
    · simp [setKey, dictGet?, h]
    · simp [setKey, dictGet?, h, ih]

/-- Storing under one key leaves the other keys' lookups unchanged. -/
theorem dictGet?_setKey_ne (m : List (PyStr × ℚ)) (k k' : PyStr) (v : ℚ)
    (h : k' ≠ k) : dictGet? (setKey m k v) k' = dictGet? m k' := by
  induction m with
  | nil =>
    have hne : ¬ k = k' := fun hh => h hh.symm
    simp [setKey, dictGet?, hne]
  | cons p rest ih =>
    obtain ⟨kk, vv⟩ := p
    by_cases hk : kk = k
    · subst hk
      have hne : ¬ kk = k' := fun hh => h hh.symm
      simp [setKey, dictGet?, hne]
    · simp only [setKey, if_neg hk]
      by_cases hk' : kk = k'
      · simp [dictGet?, hk']
      · simp [dictGet?, hk', ih]

/-- Storing a value preserves the key column, except that an absent key is
appended at the end. -/
theorem map_fst_setKey (m : List (PyStr × ℚ)) (k : PyStr) (v : ℚ) :
    (setKey m k v).map Prod.fst =
      if k ∈ m.map Prod.fst then m.map Prod.fst else m.map Prod.fst ++ [k] := by
  induction m with
  | nil => simp [setKey]
  | cons p rest ih =>
    obtain ⟨kk, vv⟩ := p
    by_cases hk : kk = k
    · simp [setKey, hk]
    · have hne : ¬ k = kk := fun hh => hk hh.symm
      simp only [setKey, if_neg hk, List.map_cons, List.mem_cons]
      rw [ih]
      by_cases hmem : k ∈ rest.map Prod.fst
      · simp [hmem, hne]
      · simp [hmem, hne]

/-- A lookup succeeds exactly for the keys present in the key column. -/
theorem dictGet?_ne_none_iff (m : List (PyStr × ℚ)) (k : PyStr) :
    dictGet? m k ≠ none ↔ k ∈ m.map Prod.fst := by
  induction m with
  | nil => simp [dictGet?]
  | cons p rest ih =>
    obtain ⟨kk, vv⟩ := p
    by_cases hk : kk = k
    · simp [dictGet?, hk]
    · have hne : ¬ k = kk := fun hh => hk hh.symm
      simp [dictGet?, hk, ih, hne]

/-- The running-total invariant of the aggregation loop: after folding the
remaining rows into an intermediate dict, the value at `k` is the value the
dict already held (`0.0` and present-from-now-on if `k` was unseen),
left-summed with the measures of the remaining rows keyed `k`, in order. -/
theorem aggFold_dictGet? (k : PyStr) (rows : List (PyStr × ℚ)) :
    ∀ m : List (PyStr × ℚ),
      dictGet? (rows.foldl aggStep m) k =
        match dictGet? m k with
        | some v => some (((rows.filter (fun p => decide (p.1 = k))).map Prod.snd).foldl (· + ·) v)
        | none =>
          if k ∈ rows.map Prod.fst then
            some (((rows.filter (fun p => decide (p.1 = k))).map Prod.snd).foldl (· + ·) 0)
          else none := by
  induction rows with
  | nil =>
    intro m
    cases hm : dictGet? m k <;> simp [hm]
  | cons p rows ih =>
    intro m
    rw [List.foldl_cons, ih (aggStep m p)]
    by_cases hpk : p.1 = k
    · have hstep : dictGet? (aggStep m p) k = some ((dictGet? m k).getD 0 + p.2) := by
        rw [aggStep, hpk]
        exact dictGet?_setKey_self m k _
      rw [hstep]
      cases hm : dictGet? m k with
      | some v => simp [hpk, hm, List.filter_cons, List.foldl_cons]
      | none => simp [hpk, hm, List.filter_cons, List.foldl_cons]
    · have hstep : dictGet? (aggStep m p) k = dictGet? m k :=
        dictGet?_setKey_ne m p.1 k _ (fun hh => hpk hh.symm)
      rw [hstep]
      have hne : ¬ k = p.1 := fun hh => hpk hh.symm
      cases hm : dictGet? m k with
      | some v => simp [hpk, hm, List.filter_cons]
      | none =>
        simp only [hpk, hm, List.filter_cons, decide_eq_true_eq, if_neg hpk]
        exact if_congr (by simp [List.mem_cons, hne]) rfl rfl

/-- C1: the aggregator's key set is exactly the set of categories occurring
in the input rows; the value stored for a category is the left-to-right
(encounter-order) sum, starting from `0.0`, of the measures of the rows
with that category; and the empty input yields the empty map. -/
theorem c1_aggregator (rows : List (PyStr × ℚ)) (k : PyStr) :
    (k ∈ (transform_total_verified_loss_by_state rows).map Prod.fst ↔
      k ∈ rows.map Prod.fst) ∧
    (k ∈ rows.map Prod.fst →
      dictGet? (transform_total_verified_loss_by_state rows) k =
        some (((rows.filter (fun p => decide (p.1 = k))).map Prod.snd).foldl (· + ·) 0)) ∧
    transform_total_verified_loss_by_state ([] : List (PyStr × ℚ)) = [] := by
  have hinv : dictGet? (rows.foldl aggStep []) k =
      if k ∈ rows.map Prod.fst then
        some (((rows.filter (fun p => decide (p.1 = k))).map Prod.snd).foldl (· + ·) 0)
      else none := by
    simpa [dictGet?] using aggFold_dictGet? k rows []
  unfold transform_total_verified_loss_by_state
  refine ⟨?_, ?_, rfl⟩
  · rw [← dictGet?_ne_none_iff, hinv]
    by_cases hmem : k ∈ rows.map Prod.fst
    · simp [hmem]
    · simp [hmem]
  · intro hmem
    rw [hinv, if_pos hmem]

/-- Concrete run of C1: three records, two categories; the total for `"UT"`
is the encounter-order sum `(0.0 + 100) + 25`. -/
theorem c1_aggregator_witness :
    dictGet? (transform_total_verified_loss_by_state
      [("UT".data, (100 : ℚ)), ("CA".data, 50), ("UT".data, 25)]) ("UT".data) =
      some 125 := by
  have h := (c1_aggregator
    [("UT".data, (100 : ℚ)), ("CA".data, 50), ("UT".data, 25)] ("UT".data)).2.1
    (by decide)
  rw [h]
  have h2 : (([("UT".data, (100 : ℚ)), ("CA".data, 50), ("UT".data, 25)].filter
      (fun p => decide (p.1 = "UT".data))).map Prod.snd) = [100, 25] := rfl
  rw [h2]
  norm_num [List.foldl]

/-- Dropping a prefix by predicate twice is the same as dropping it once. -/
theorem dropWhile_dropWhile (p : Char → Bool) (l : List Char) :
    List.dropWhile p (List.dropWhile p l) = List.dropWhile p l := by
  induction l with
  | nil => rfl
  | cons c t ih =>
    by_cases h : p c
    · simp [List.dropWhile_cons, h, ih]
    · simp [List.dropWhile_cons, h]

/-- A list unchanged by `dropWhile` stays unchanged on every prefix. -/
theorem dropWhile_take_of_fixed (p : Char → Bool) (l : List Char)
    (h : List.dropWhile p l = l) (k : ℕ) :
    List.dropWhile p (l.take k) = l.take k := by
  induction l generalizing k with
  | nil => simp
  | cons c t ih =>
    have hc : p c = false := by
      by_contra hcc
      rw [List.dropWhile_cons, if_pos (by simpa using hcc)] at h
      have hlen := congrArg List.length h
      have hle : (List.dropWhile p t).length ≤ t.length :=
        (List.dropWhile_sublist p).length_le
      simp at hlen
      omega
    cases k with
    | zero => simp
    | succ k' =>
      rw [List.take_succ_cons, List.dropWhile_cons, if_neg (by simp [hc])]

/-- `dropWhile` drops exactly the matching prefix. -/
theorem dropWhile_eq_drop_len (p : Char → Bool) (l : List Char) :
    List.dropWhile p l = l.drop (l.takeWhile p).length := by
  induction l with
  | nil => rfl
  | cons c t ih =>
    by_cases h : p c
    · simp [List.dropWhile_cons, List.takeWhile_cons, h, ih]
    · simp [List.dropWhile_cons, List.takeWhile_cons, h]

/-- Stripping is removing a whitespace prefix and then cutting to a prefix
of what remains. -/
theorem pyStrip_eq_take (l : PyStr) :
    pyStrip l = (l.dropWhile pyWs).take
      ((l.dropWhile pyWs).length - ((l.dropWhile pyWs).reverse.takeWhile pyWs).length) := by
  unfold pyStrip
  rw [dropWhile_eq_drop_len pyWs (l.dropWhile pyWs).reverse, List.drop_reverse,
    List.reverse_reverse]

/-- `s.strip().strip() = s.strip()`: stripping is idempotent, so a stripped
category key carries no leading or trailing whitespace. -/
theorem pyStrip_idem (l : PyStr) : pyStrip (pyStrip l) = pyStrip l := by
  have h1 : List.dropWhile pyWs (pyStrip l) = pyStrip l := by
    rw [pyStrip_eq_take l]
    exact dropWhile_take_of_fixed pyWs _ (dropWhile_dropWhile pyWs l) _
  have h2 : List.dropWhile pyWs (pyStrip l).reverse = (pyStrip l).reverse := by
    have hrev : (pyStrip l).reverse = (l.dropWhile pyWs).reverse.dropWhile pyWs := by
      rw [pyStrip, List.reverse_reverse]
    rw [hrev, dropWhile_dropWhile]
  show ((List.dropWhile pyWs (pyStrip l)).reverse.dropWhile pyWs).reverse = pyStrip l
  rw [h1, h2, List.reverse_reverse]

/-- The category of an extracted row is the stripped text of its category
cell, and it is non-empty. -/
theorem extractRow_some_fst (sheet : Sheet) (r : ℕ) (p : PyStr × ℚ)
    (h : extractRow sheet r = some p) :
    p.1 = pyStrip (cellToText (sheet.cellH r)) ∧ p.1 ≠ [] := by
  cases hH : sheet.cellH r <;> cases hI : sheet.cellI r <;>
    simp only [extractRow, hH, hI] at h <;>
    (try split_ifs at h) <;> simp_all [cellToText]
  all_goals subst h
  all_goals simp_all [cellToText]

/-- The aggregate's key column has exactly the categories of the rows. -/
theorem transform_keys_iff (rows : List (PyStr × ℚ)) (k : PyStr) :
    k ∈ (transform_total_verified_loss_by_state rows).map Prod.fst ↔
      k ∈ rows.map Prod.fst := by
  have hinv : dictGet? (rows.foldl aggStep []) k =
      if k ∈ rows.map Prod.fst then
        some (((rows.filter (fun p => decide (p.1 = k))).map Prod.snd).foldl (· + ·) 0)
      else none := by
    simpa [dictGet?] using aggFold_dictGet? k rows []
  unfold transform_total_verified_loss_by_state
  rw [← dictGet?_ne_none_iff, hinv]
  by_cases hmem : k ∈ rows.map Prod.fst
  · simp [hmem]
  · simp [hmem]

/-- Folding rows into a dict with a duplicate-free key column keeps the key
column duplicate-free. -/
theorem nodup_aggFold (rows : List (PyStr × ℚ)) :
    ∀ m : List (PyStr × ℚ), (m.map Prod.fst).Nodup →
      (((rows.foldl aggStep m).map Prod.fst)).Nodup := by
  induction rows with
  | nil => exact fun m h => h
  | cons p rows ih =>
    intro m h
    apply ih
    rw [aggStep, map_fst_setKey]
    split_ifs with hmem
    · exact h
    · simp [List.nodup_append, h, hmem]

/-- C8: every key of the aggregate map is the trimmed category text of at
least one accepted record (an extracted row of the scanned region), is
non-empty, carries no leading or trailing whitespace (it is fixed by
stripping), and the keys are pairwise distinct. -/
theorem c8_aggregate_keys (sheet : Sheet) :
    (((transform_total_verified_loss_by_state (extractedRows sheet)).map
      Prod.fst).Nodup) ∧
    (∀ k ∈ (transform_total_verified_loss_by_state (extractedRows sheet)).map
        Prod.fst,
      k ≠ [] ∧ pyStrip k = k ∧
      ∃ r ∈ scannedRows sheet, ∃ v, extractRow sheet r = some (k, v) ∧
        k = pyStrip (cellToText (sheet.cellH r))) := by
  constructor
  · exact nodup_aggFold (extractedRows sheet) [] (by simp)
  · intro k hk
    have hk2 : k ∈ (extractedRows sheet).map Prod.fst :=
      (transform_keys_iff _ k).mp hk
    obtain ⟨p, hp, rfl⟩ := List.mem_map.mp hk2
    obtain ⟨r, hr, hrow⟩ := List.mem_filterMap.mp hp
    have hfst := extractRow_some_fst sheet r p hrow
    refine ⟨hfst.2, ?_, r, hr, p.2, ?_, hfst.1⟩
    · rw [hfst.1]
      exact pyStrip_idem _
    · rw [Prod.mk.eta]
      exact hrow

/-- Concrete run of C8: on `sampleSheet` the key `"UT"` of the aggregate
map is a non-empty stripped category coming from an accepted row. -/
theorem c8_aggregate_keys_witness :
    "UT".data ≠ ([] : PyStr) ∧ pyStrip ("UT".data) = "UT".data ∧
      ∃ r ∈ scannedRows sampleSheet, ∃ v,
        extractRow sampleSheet r = some ("UT".data, v) ∧
        "UT".data = pyStrip (cellToText (sampleSheet.cellH r)) :=
  (c8_aggregate_keys sampleSheet).2 ("UT".data) (by decide)

/-- Inserting an entry into a list commutes with filtering by an exact
total: the entries skipped before the insertion point all have strictly
greater totals, so none of them shares the inserted entry's total. -/
theorem filter_orderedInsert_rankRel (c : ℚ) (x : PyStr × ℚ) (l : List (PyStr × ℚ)) :
    (List.orderedInsert rankRel x l).filter (fun p => decide (p.2 = c)) =
      if x.2 = c then x :: l.filter (fun p => decide (p.2 = c))
      else l.filter (fun p => decide (p.2 = c)) := by
  induction l with
  | nil =>
    by_cases h : x.2 = c <;> simp [List.orderedInsert, List.filter, h]
  | cons y t ih =>
    rw [List.orderedInsert]
    by_cases hr : rankRel x y
    · rw [if_pos hr]
      by_cases hx : x.2 = c <;> simp [List.filter_cons, hx]
    · rw [if_neg hr]
      have hlt : x.2 < y.2 := lt_of_not_le hr
      by_cases hx : x.2 = c
      · have hy : ¬ y.2 = c := by
          intro hyc
          rw [hx, hyc] at hlt
          exact lt_irrefl c hlt
        simp [List.filter_cons, hx, hy, ih]
      · by_cases hy : y.2 = c <;> simp [List.filter_cons, hx, hy, ih]

/-- Insertion sort under `rankRel` is stable: filtering the sorted list to
the entries of any one total gives them in their original order. -/
theorem filter_insertionSort_rankRel (c : ℚ) (l : List (PyStr × ℚ)) :
    (List.insertionSort rankRel l).filter (fun p => decide (p.2 = c)) =
      l.filter (fun p => decide (p.2 = c)) := by
  induction l with
  | nil => rfl
  | cons x t ih =>
    rw [List.insertionSort, filter_orderedInsert_rankRel]
    by_cases hx : x.2 = c <;> simp [List.filter_cons, hx, ih]

/-- C5: the reporter's ranking is a stable descending sort of the
aggregate map in its insertion (first-seen) order: it is a permutation of
the map, each entry's total is `≥` every later entry's total, and for any
fixed total the entries carrying it appear in exactly their original
first-seen order (stable tie-break). -/
theorem c5_ranking_stable_descending (totals : List (PyStr × ℚ)) :
    List.Perm (rankedOf totals) totals ∧
    List.Pairwise (fun a b : PyStr × ℚ => b.2 ≤ a.2) (rankedOf totals) ∧
    ∀ c : ℚ, (rankedOf totals).filter (fun p => decide (p.2 = c)) =
      totals.filter (fun p => decide (p.2 = c)) :=
  ⟨List.perm_insertionSort rankRel totals,
   List.sorted_insertionSort rankRel totals,
   fun c => filter_insertionSort_rankRel c totals⟩

/-- C6: for a non-negative top-N the report consists of the fixed header
lines followed by exactly `min(top_n, number of distinct categories)` data
rows — the first N ranked entries, all of them (with no padding) when
fewer than N categories exist. -/
theorem c6_report_row_count (totals : List (PyStr × ℚ)) (name : PyStr)
    (n : ℤ) (h : 0 ≤ n) :
    reportLines totals name n =
      reportHeader totals name n ++ reportDataLines totals n ∧
    (reportDataLines totals n).length = min n.toNat totals.length := by
  refine ⟨rfl, ?_⟩
  unfold reportDataLines pySliceTo
  rw [if_pos h, List.length_map, List.enum_length, List.length_take]
  unfold rankedOf
  rw [List.length_insertionSort]

/-- Concrete run of C6: one category, `top_n = 3`, hence `min 3 1 = 1`
data row. -/
theorem c6_report_row_count_witness :
    reportLines [("UT".data, (1 : ℚ))] [] 3 =
      reportHeader [("UT".data, (1 : ℚ))] [] 3 ++
        reportDataLines [("UT".data, (1 : ℚ))] 3 ∧
    (reportDataLines [("UT".data, (1 : ℚ))] 3).length =
      min (3 : ℤ).toNat [("UT".data, (1 : ℚ))].length :=
  c6_report_row_count [("UT".data, 1)] [] 3 (by decide)

/-- C10: for a negative top-N, Python's `ranked[:top_n]` slice keeps all
but the last `|top_n|` ranked entries, so the report has
`max(0, categories + top_n)` data rows (here `Int.toNat` is exactly
`max 0`); the function is total, raising no error on negative input. -/
theorem c10_negative_top_n (totals : List (PyStr × ℚ)) (name : PyStr)
    (n : ℤ) (h : n < 0) :
    reportLines totals name n =
      reportHeader totals name n ++ reportDataLines totals n ∧
    (reportDataLines totals n).length = ((totals.length : ℤ) + n).toNat := by
  refine ⟨rfl, ?_⟩
  unfold reportDataLines pySliceTo
  rw [if_neg (not_le.mpr h), List.length_map, List.enum_length, List.length_take]
  unfold rankedOf
  rw [List.length_insertionSort]
  have hle : ((totals.length : ℤ) + n).toNat ≤ totals.length := by omega
  exact min_eq_left hle

/-- Concrete run of C10: one category, `top_n = -1`, hence
`(1 + (-1)).toNat = 0` data rows. -/
theorem c10_negative_top_n_witness :
    reportLines [("UT".data, (1 : ℚ))] [] (-1) =
      reportHeader [("UT".data, (1 : ℚ))] [] (-1) ++
        reportDataLines [("UT".data, (1 : ℚ))] (-1) ∧
    (reportDataLines [("UT".data, (1 : ℚ))] (-1)).length =
      ((([("UT".data, (1 : ℚ))].length : ℤ)) + (-1)).toNat :=
  c10_negative_top_n [("UT".data, 1)] [] (-1) (by decide)

/-- C7: the pipeline runner propagates any extractor error and any
validator error unmodified (the aggregator has no error case), and on such
an error the result carries no report content — the reporter is never
reached, so nothing is written. -/
theorem c7_error_propagation (file : Option Workbook) :
    (∀ e, extract_state_verified_loss_rows file fy22Sheet = .error e →
      run_pipeline file = .error e) ∧
    (∀ rows e, extract_state_verified_loss_rows file fy22Sheet = .ok rows →
      verify_state_totals (transform_total_verified_loss_by_state rows) = .error e →
      run_pipeline file = .error e) := by
  constructor
  · intro e he
    simp [run_pipeline, he]
  · intro rows e hok hv
    simp [run_pipeline, hok, hv]

/-- Concrete run of C7: a missing input file aborts the run with that very
error and no report content. -/
theorem c7_error_propagation_witness :
    run_pipeline none = .error .missingFile :=
  (c7_error_propagation none).1 .missingFile rfl

/-- C9: the pipeline is deterministic — in this embedding every stage is a
pure function of the input workbook and the fixed parameters, so two runs
on the same unchanged input produce identical results, in particular
byte-identical report file contents. -/
theorem c9_deterministic (file : Option Workbook)
    (o₁ o₂ : Except PipelineError PyStr)
    (h₁ : run_pipeline file = o₁) (h₂ : run_pipeline file = o₂) : o₁ = o₂ := by
  rw [← h₁, ← h₂]

/-- Concrete run of C9: two runs on the same (missing) input agree. -/
theorem c9_deterministic_witness :
    (Except.error PipelineError.missingFile : Except PipelineError PyStr) =
      Except.error PipelineError.missingFile :=
  c9_deterministic none _ _ rfl rfl

/-- Concrete run of C2: row 6 of `sampleSheet` (category `"UT"`, numeric
measure) satisfies the inclusion criterion on both sides. -/
theorem c2_row_inclusion_witness :
    (∃ p, extractRow sampleSheet 6 = some p) ↔
      (sampleSheet.cellH 6 ≠ .empty ∧
        pyStrip (cellToText (sampleSheet.cellH 6)) ≠ [] ∧
        sampleSheet.cellI 6 ≠ .empty ∧
        ∀ s, sampleSheet.cellI 6 = .text s → pyStrip s ≠ []) :=
  c2_row_inclusion sampleSheet 6

/-- Concrete run of C4: the map `{"UT": -5.0}` is rejected with a
negative-total error. -/
theorem c4_validator_witness :
    ∃ s v, verify_state_totals [("UT".data, (-5 : ℚ))] =
      .error (.negativeTotal s v) :=
  ((c4_validator [("UT".data, (-5 : ℚ))]).2.1).mpr
    ⟨by simp, ("UT".data, -5), by simp, by norm_num⟩

/-- Concrete run of C5: the tied entries of total `1` keep their original
order after ranking. -/
theorem c5_ranking_stable_descending_witness :
    (rankedOf [("UT".data, (1 : ℚ)), ("CA".data, 2)]).filter
        (fun p => decide (p.2 = 1)) =
      [("UT".data, (1 : ℚ)), ("CA".data, 2)].filter (fun p => decide (p.2 = 1)) :=
  (c5_ranking_stable_descending [("UT".data, 1), ("CA".data, 2)]).2.2 1
